import Mathlib

/-!
Verification development for sra-tools.

Shallow embedding of three pieces of the repository:

* `tools/sharq/fastq_read.hpp` : `CFastqRead::GetQualScores`;
* `tools/external/sra-info/main.cpp` : `GetNumber`, `GetPositiveNumber`,
  `GetNonNegativeNumber` and the detail-level switch of `KMain`;
* `tools/external/fasterq-dump/var_fmt.h` : the variable-format engine whose
  declarations live in that header.

The definitions come first, the theorems about them follow.
-/

set_option autoImplicit false

/-! ## tools/sharq/fastq_read.hpp -/

namespace Sharq

/-- The members of `CFastqRead`.  A `std::string` is the list of its bytes (one
`char` each), a `vector<uint8_t>` the list of its elements. -/
structure CFastqRead where
  mLineNumber : Nat
  mSpot : List UInt8
  mReadNum : List UInt8
  mSpotGroup : List UInt8
  mReadFilter : UInt8
  mReadType : UInt8
  mSuffix : List UInt8
  mSequence : List UInt8
  mQuality : List UInt8
  mQualScores : List UInt8

/-- One `push_back` on a `vector<uint8_t>`. -/
def push_back (v : List UInt8) (x : UInt8) : List UInt8 := v ++ [x]

/-- The call `copy(first, last, back_inserter(dst))`: one `push_back` per
element of the source range, front to back.  A `char` of a string source is
stored as the `uint8_t` of the same byte. -/
def copy_back_inserter (src : List UInt8) (dst : List UInt8) : List UInt8 :=
  match src with
  | [] => dst
  | x :: rest => copy_back_inserter rest (push_back dst x)

/-- Embedding of `CFastqRead::GetQualScores`; the result is the caller's vector
after the call. -/
def CFastqRead.GetQualScores (self : CFastqRead) (qual_score : List UInt8) : List UInt8 :=
  if self.mQualScores.isEmpty then
    copy_back_inserter self.mQuality qual_score
  else
    copy_back_inserter self.mQualScores qual_score

end Sharq

/-! ## tools/external/sra-info/main.cpp -/

namespace SraInfo

/-- The macro `OPTION_LIMIT`. -/
def OPTION_LIMIT : String := "limit"

/-- The macro `OPTION_DETAIL`. -/
def OPTION_DETAIL : String := "detail"

/-- The parsed command line as far as the option accessors of `kapp/args.h`
expose it: every option name with the values given for it, in order. -/
structure Args where
  options : List (String × List String)

/-- The values recorded for one option. -/
def Args.values (args : Args) (name : String) : List String :=
  match args.options.find? (fun p => p.1 == name) with
  | some p => p.2
  | none => []

/-- Library call `ArgsOptionCount`: how many values the option has. -/
def ArgsOptionCount (args : Args) (name : String) : Nat :=
  (args.values name).length

/-- Library call `ArgsOptionValue`: the value number `iteration` of the option,
`none` when there is none (the out-pointer keeps its `nullptr`). -/
def ArgsOptionValue (args : Args) (name : String) (iteration : Nat) : Option String :=
  (args.values name)[iteration]?

/-- The exceptions `std::stoi` throws. -/
inductive StoiError where
  | invalid_argument
  | out_of_range
deriving DecidableEq, Repr

/-- Smallest value of `int`. -/
def INT_MIN : Int := -2147483648

/-- Largest value of `int`. -/
def INT_MAX : Int := 2147483647

/-- The characters `isspace` accepts in the C locale. -/
def isspace (c : Char) : Bool :=
  c.toNat = 32 || (9 ≤ c.toNat && c.toNat ≤ 13)

/-- The value of a run of decimal digits, most significant first. -/
def digitsValue (ds : List Char) : Nat :=
  ds.foldl (fun acc c => 10 * acc + (c.toNat - 48)) 0

/-- Splits an optional sign off the front: `true` for a minus sign. -/
def takeSign (cs : List Char) : Bool × List Char :=
  match cs with
  | [] => (false, [])
  | c :: rest =>
    if c.toNat = 45 then (true, rest)
    else if c.toNat = 43 then (false, rest)
    else (false, c :: rest)

/-- Standard-library `std::stoi(str)` (base 10, no end position requested):
leading white space is skipped, one optional sign is read, then the longest run
of decimal digits; whatever follows the digits is ignored.  No digit at all
throws `invalid_argument`, a value outside `int` throws `out_of_range`. -/
def stoi (str : String) : Except StoiError Int :=
  let body := takeSign (str.toList.dropWhile isspace)
  let ds := body.2.takeWhile Char.isDigit
  if ds.isEmpty then
    .error .invalid_argument
  else
    let d : Int := if body.1 then -(digitsValue ds : Int) else (digitsValue ds : Int)
    if d < INT_MIN ∨ INT_MAX < d then .error .out_of_range else .ok d

/-- The option value that spells the natural number `n` in decimal, as the
standard library prints it. -/
def numeral (n : Nat) : String := toString n

/-- The exception class `VDB::Error` with its message. -/
structure VDBError where
  msg : String
deriving DecidableEq, Repr

/-- Conversion of an `int` to `unsigned int` (32 bits). -/
def toUnsignedInt (d : Int) : Nat := (d % 4294967296).toNat

/-- Embedding of `GetNumber`.  `DISP_RC` only logs.  When the option has no
value the pointer handed to `std::stoi` is null; the model takes the `catch(...)`
branch there. -/
def GetNumber (args : Args) (option : String) (condition : Int → Bool) :
    Except VDBError Int :=
  match ArgsOptionValue args option 0 with
  | none => .error ⟨""⟩
  | some res =>
    match stoi res with
    | .error _ => .error ⟨""⟩
    | .ok d =>
      if !condition d then .error ⟨""⟩
      else .ok d

/-- Embedding of `GetPositiveNumber`; the `int` is returned as `unsigned int`. -/
def GetPositiveNumber (args : Args) (option : String) : Except VDBError Nat :=
  match GetNumber args option (fun x => decide (x > 0)) with
  | .ok d => .ok (toUnsignedInt d)
  | .error _ => .error ⟨"invalid value for --" ++ option ++ "(not a positive number)"⟩

/-- Embedding of `GetNonNegativeNumber`; the `int` is returned as `unsigned int`. -/
def GetNonNegativeNumber (args : Args) (option : String) : Except VDBError Nat :=
  match GetNumber args option (fun x => decide (x ≥ 0)) with
  | .ok d => .ok (toUnsignedInt d)
  | .error _ => .error ⟨"invalid value for --" ++ option ++ "(not a non-negative number)"⟩

/-- The enumeration `SraInfo::Detail`, by the enumerators `KMain` uses. -/
inductive Detail where
  | Short
  | Abbreviated
  | Full
  | Verbose
deriving DecidableEq, Repr

/-- The detail-level block of `KMain` (inside the `--spot-layout` branch): the
value of the local `detail` when the block is left, or the exception that
escapes it. -/
def KMain_detail (args : Args) : Except VDBError Detail :=
  let detail := Detail.Verbose
  if ArgsOptionCount args OPTION_DETAIL > 0 then
    match GetNonNegativeNumber args OPTION_DETAIL with
    | .error e => .error e
    | .ok 0 => .ok Detail.Short
    | .ok 1 => .ok Detail.Abbreviated
    | .ok 2 => .ok Detail.Full
    | .ok _ => .ok detail
  else
    .ok detail

end SraInfo

/-! ## tools/external/fasterq-dump/var_fmt.h

The header declares the descriptor list, the format object and the two print
functions; their bodies are in `var_fmt.c`, which is not part of the sources at
hand.  The definitions below model them from the specification. -/

namespace VarFmt

/-- Text as the engine handles it: a sequence of bytes. -/
abbrev Bytes := List Char

/-- Number of values of `uint64_t`. -/
def UINT64_MOD : Nat := 18446744073709551616

/-- Modelled from the spec: the record behind one entry of `vfmt_desc_list_t`
(section 3, PlaceholderBinding).  A string placeholder holds one slot of the
string arguments and an optional second one, an integer placeholder one slot of
the integer arguments. -/
inductive PlaceholderBinding where
  | StringArg (idx : Nat) (idx2 : Option Nat)
  | IntArg (idx : Nat)
deriving DecidableEq, Repr

/-- Modelled from the spec: one named entry of the descriptor table. -/
structure vfmt_desc_t where
  name : Bytes
  binding : PlaceholderBinding
deriving DecidableEq, Repr

/-- Modelled from the spec: the body of `struct vfmt_desc_list_t` (section 3,
DescriptorTable), the entries in insertion order. -/
structure vfmt_desc_list_t where
  entries : List vfmt_desc_t
deriving DecidableEq, Repr

/-- Modelled from the spec: `vfmt_create_desc_list`, the new empty table. -/
def vfmt_create_desc_list : vfmt_desc_list_t := ⟨[]⟩

/-- Modelled from the spec: the name lookup the compiler and the add calls use
inside `var_fmt.c`. -/
def vfmt_desc_list_t.find (self : vfmt_desc_list_t) (name : Bytes) :
    Option PlaceholderBinding :=
  match self.entries.find? (fun d => decide (d.name = name)) with
  | some d => some d.binding
  | none => none

/-- Modelled from the spec: the construction error an add call reports
(section 7). -/
inductive ConstructionError where
  | duplicateName (name : Bytes)
deriving DecidableEq, Repr

/-- Modelled from the spec: the insertion shared by both add calls.  The C
functions return `void` and work on `self`, so the result is the table after
the call together with the error reported, if any. -/
def vfmt_desc_list_t.add (self : vfmt_desc_list_t) (name : Bytes)
    (binding : PlaceholderBinding) : vfmt_desc_list_t × Option ConstructionError :=
  match self.find name with
  | some _ => (self, some (.duplicateName name))
  | none => (⟨self.entries ++ [⟨name, binding⟩]⟩, none)

/-- Modelled from the spec: `vfmt_add_str_to_desc_list` (section 4.1,
add_string).  The second slot is optional in the specification. -/
def vfmt_add_str_to_desc_list (self : vfmt_desc_list_t) (name : Bytes) (idx : Nat)
    (idx2 : Option Nat) : vfmt_desc_list_t × Option ConstructionError :=
  self.add name (.StringArg idx idx2)

/-- Modelled from the spec: `vfmt_add_int_to_desc_list` (section 4.1,
add_int). -/
def vfmt_add_int_to_desc_list (self : vfmt_desc_list_t) (name : Bytes) (idx : Nat) :
    vfmt_desc_list_t × Option ConstructionError :=
  self.add name (.IntArg idx)

/-- One add call, as data. -/
inductive AddCall where
  | str (name : Bytes) (idx : Nat) (idx2 : Option Nat)
  | int (name : Bytes) (idx : Nat)
deriving DecidableEq, Repr

/-- The name an add call registers. -/
def AddCall.name (c : AddCall) : Bytes :=
  match c with
  | .str name _ _ => name
  | .int name _ => name

/-- Performs one add call and keeps the table. -/
def AddCall.run (c : AddCall) (self : vfmt_desc_list_t) : vfmt_desc_list_t :=
  match c with
  | .str name idx idx2 => (vfmt_add_str_to_desc_list self name idx idx2).1
  | .int name idx => (vfmt_add_int_to_desc_list self name idx).1

/-- Performs a sequence of add calls, first to last. -/
def runAddCalls (calls : List AddCall) (self : vfmt_desc_list_t) : vfmt_desc_list_t :=
  match calls with
  | [] => self
  | c :: rest => runAddCalls rest (c.run self)

/-- Modelled from the spec: one element of a compiled format (section 3,
Segment). -/
inductive Segment where
  | Literal (text : Bytes)
  | PlaceholderRef (binding : PlaceholderBinding)
deriving DecidableEq, Repr

/-- Modelled from the spec: the body of `struct vfmt_t` (section 3,
FormatProgram), the segments in order. -/
structure vfmt_t where
  segments : List Segment
deriving DecidableEq, Repr

/-- Modelled from the spec: the character of one decimal digit, for the integer
printing inside `var_fmt.c`. -/
def digitChar (d : Nat) : Char := Char.ofNat (48 + d)

/-- Modelled from the spec: the digit loop of the integer printing inside
`var_fmt.c`.  It writes `n` in decimal in front of `acc`, last digit first;
`fuel` bounds the number of digits. -/
def decimalAux (fuel : Nat) (n : Nat) (acc : List Char) : List Char :=
  match fuel with
  | 0 => acc
  | fuel1 + 1 =>
    if n < 10 then digitChar n :: acc
    else decimalAux fuel1 (n / 10) (digitChar (n % 10) :: acc)

/-- Modelled from the spec: the decimal text of an integer argument (section
4.3, IntArg).  A number has no more digits than its value plus one. -/
def decimalText (n : Nat) : List Char := decimalAux (n + 1) n []

/-- The number a run of decimal digits denotes, most significant first. -/
def decimalValue (ds : List Char) : Nat :=
  ds.foldl (fun acc c => 10 * acc + (c.toNat - 48)) 0

/-- Modelled from the spec: what one segment emits (section 4.3, per-segment
emission rule); `none` is the out-of-bounds contract violation.  The rule that
combines the two values of a two-slot string placeholder is left open by the
specification and is the parameter `combine`.  An integer argument is a
`uint64_t`. -/
def emit (combine : Bytes → Bytes → Bytes) (seg : Segment) (str_args : List Bytes)
    (int_args : List Nat) : Option Bytes :=
  match seg with
  | .Literal text => some text
  | .PlaceholderRef (.StringArg idx none) => str_args[idx]?
  | .PlaceholderRef (.StringArg idx (some idx2)) =>
    match str_args[idx]?, str_args[idx2]? with
    | some a, some b => some (combine a b)
    | _, _ => none
  | .PlaceholderRef (.IntArg idx) =>
    match int_args[idx]? with
    | some v => some (decimalText (v % UINT64_MOD))
    | none => none

/-- Modelled from the spec: the outcomes of a render behind `rc_t` (sections 4.3
and 7): success, a failed write, or the out-of-bounds contract violation. -/
inductive rc_t where
  | success
  | write_failed
  | contract_violation
deriving DecidableEq, Repr

/-- Modelled from the spec: the one traversal behind both print functions
(section 9), parameterised over the operation `put` that emits bytes into the
sink state `σ` and tells whether it succeeded.  Segments are emitted in order;
the traversal stops at the first emission that fails. -/
def render {σ : Type} (combine : Bytes → Bytes → Bytes) (put : σ → Bytes → σ × Bool)
    (str_args : List Bytes) (int_args : List Nat) (segs : List Segment) (s : σ) :
    σ × rc_t :=
  match segs with
  | [] => (s, .success)
  | seg :: rest =>
    match emit combine seg str_args int_args with
    | none => (s, .contract_violation)
    | some bytes =>
      match put s bytes with
      | (s1, true) => render combine put str_args int_args rest s1
      | (s1, false) => (s1, .write_failed)

/-- Modelled from the spec: `SBuffer_t` of `helper.h`, an owned buffer: the
bytes written so far and the allocated size. -/
structure SBuffer_t where
  S : Bytes
  buffer_size : Nat
deriving DecidableEq, Repr

/-- Modelled from the spec: the append to an `SBuffer_t`; bytes beyond the
allocated size are not stored. -/
def SBuffer_t.append (buf : SBuffer_t) (bytes : Bytes) : SBuffer_t :=
  { buf with S := buf.S ++ bytes.take (buf.buffer_size - buf.S.length) }

/-- Modelled from the spec: the `put` of the measuring pass of
`vfmt_write_to_buffer`, which counts the bytes. -/
def putCount (n : Nat) (bytes : Bytes) : Nat × Bool := (n + bytes.length, true)

/-- Modelled from the spec: the `put` of the writing pass of
`vfmt_write_to_buffer`. -/
def putBuffer (buf : SBuffer_t) (bytes : Bytes) : SBuffer_t × Bool := (buf.append bytes, true)

/-- Modelled from the spec: `vfmt_write_to_buffer` (section 4.3, render to
buffer).  The length is computed first, the buffer is allocated once with that
size, then the segments are written; `none` is the null result. -/
def vfmt_write_to_buffer (combine : Bytes → Bytes → Bytes) (self : vfmt_t)
    (str_args : List Bytes) (int_args : List Nat) : Option SBuffer_t :=
  match render combine putCount str_args int_args self.segments 0 with
  | (len, .success) =>
    match render combine putBuffer str_args int_args self.segments ⟨[], len⟩ with
    | (buf, .success) => some buf
    | _ => none
  | _ => none

/-- Modelled from the spec: the file sink behind `KFile` (section 6): its
content, and how many more bytes it accepts before its writes fail. -/
structure KFile where
  content : Bytes
  room : Nat
deriving DecidableEq, Repr

/-- Modelled from the spec: one write at the current offset of the sink, the
operation `KFile` offers to `vfmt_print_to_file`.  The
result is the sink, the number of bytes written and whether all were written; a
failing write stores the bytes that still fit. -/
def KFile.write (f : KFile) (bytes : Bytes) : KFile × Nat × Bool :=
  if bytes.length ≤ f.room then
    ({ content := f.content ++ bytes, room := f.room - bytes.length }, bytes.length, true)
  else
    ({ content := f.content ++ bytes.take f.room, room := 0 }, f.room, false)

/-- Modelled from the spec: the `put` of `vfmt_print_to_file`: it writes to the
sink, then advances the position cursor by the number of bytes written.  The
cursor is the `uint64_t` behind `pos`, so the sum is taken modulo 2^64. -/
def putFile (s : KFile × Nat) (bytes : Bytes) : (KFile × Nat) × Bool :=
  match s.1.write bytes with
  | (f1, num_writ, done) => ((f1, (s.2 + num_writ) % UINT64_MOD), done)

/-- Modelled from the spec: `vfmt_print_to_file` (section 4.3, render to file
sink).  The result is the return code, the sink and the position cursor after
the call. -/
def vfmt_print_to_file (combine : Bytes → Bytes → Bytes) (self : vfmt_t) (f : KFile)
    (pos : Nat) (str_args : List Bytes) (int_args : List Nat) : rc_t × KFile × Nat :=
  match render combine putFile str_args int_args self.segments (f, pos) with
  | ((f1, pos1), rc) => (rc, f1, pos1)

/-- Whether the slots of a binding exist in argument arrays of the given
lengths. -/
def PlaceholderBinding.inBounds (b : PlaceholderBinding) (str_args_len int_args_len : Nat) :
    Bool :=
  match b with
  | .StringArg idx none => decide (idx < str_args_len)
  | .StringArg idx (some idx2) => decide (idx < str_args_len) && decide (idx2 < str_args_len)
  | .IntArg idx => decide (idx < int_args_len)

/-- Whether the slots of a segment are in bounds. -/
def Segment.inBounds (seg : Segment) (str_args_len int_args_len : Nat) : Bool :=
  match seg with
  | .Literal _ => true
  | .PlaceholderRef b => b.inBounds str_args_len int_args_len

/-- Whether every slot a program refers to is in bounds (section 3,
RenderArguments). -/
def vfmt_t.inBounds (self : vfmt_t) (str_args_len int_args_len : Nat) : Bool :=
  self.segments.all (fun seg => seg.inBounds str_args_len int_args_len)

/-- The emission rule in the words of the specification, for in-bounds slots: a
literal is its text, a one-slot string placeholder the string argument, a
two-slot one the combination of both, an integer placeholder the decimal text
of the integer argument. -/
def segmentText (combine : Bytes → Bytes → Bytes) (str_args : List Bytes)
    (int_args : List Nat) (seg : Segment) : Bytes :=
  match seg with
  | .Literal text => text
  | .PlaceholderRef (.StringArg idx none) => str_args.getD idx []
  | .PlaceholderRef (.StringArg idx (some idx2)) =>
    combine (str_args.getD idx []) (str_args.getD idx2 [])
  | .PlaceholderRef (.IntArg idx) => decimalText (int_args.getD idx 0 % UINT64_MOD)

/-- What a format string is made of, read left to right: a character of literal
text, or a placeholder with its name. -/
inductive FormatItem where
  | char (c : Char)
  | placeholder (name : Bytes)
deriving DecidableEq, Repr

/-- The text a format item stands for under a descriptor table and argument
arrays: the character itself, or the emission of the placeholder by the rule of
`segmentText`. -/
def FormatItem.text (combine : Bytes → Bytes → Bytes) (vars : vfmt_desc_list_t)
    (str_args : List Bytes) (int_args : List Nat) (item : FormatItem) : Bytes :=
  match item with
  | .char c => [c]
  | .placeholder name =>
    match vars.find name with
    | some b => segmentText combine str_args int_args (.PlaceholderRef b)
    | none => []

/-- The text a segment list renders to: the emissions of the segments one after
the other, `none` when a slot is out of bounds. -/
def renderedText (combine : Bytes → Bytes → Bytes) (str_args : List Bytes)
    (int_args : List Nat) (segs : List Segment) : Option Bytes :=
  match segs with
  | [] => some []
  | seg :: rest =>
    match emit combine seg str_args int_args, renderedText combine str_args int_args rest with
    | some a, some b => some (a ++ b)
    | _, _ => none

/-- The combination rule used in the worked examples: concatenation. -/
def concatRule (a b : Bytes) : Bytes := a ++ b

/-- The descriptor table of the worked example: `add_int("len", 0)` then
`add_string("name", 0)`. -/
def exampleTable : vfmt_desc_list_t :=
  (vfmt_add_str_to_desc_list
    (vfmt_add_int_to_desc_list vfmt_create_desc_list "len".toList 0).1
    "name".toList 0 none).1

/-- The program the worked example compiles to. -/
def exampleProgram : vfmt_t :=
  ⟨[.PlaceholderRef (.StringArg 0 none), .Literal [':'], .PlaceholderRef (.IntArg 0),
    .Literal ['\n']]⟩

end VarFmt

/-! ## Theorems: tools/sharq/fastq_read.hpp -/

namespace Sharq

theorem copy_back_inserter_eq (src dst : List UInt8) :
    copy_back_inserter src dst = dst ++ src := by
  induction src generalizing dst with
  | nil => simp [copy_back_inserter]
  | cons x rest ih => simp [copy_back_inserter, push_back, ih]

/-- C6: `CFastqRead::GetQualScores` appends to the caller's vector.  For every
read and every input vector `v` the vector after the call is `v` followed by
the numeric quality scores when these are non-empty, and `v` followed by the
bytes of the quality string otherwise; `v` is kept as a prefix. -/
theorem GetQualScores_appends (self : CFastqRead) (v : List UInt8) :
    (self.mQualScores ≠ [] → self.GetQualScores v = v ++ self.mQualScores) ∧
    (self.mQualScores = [] → self.GetQualScores v = v ++ self.mQuality) ∧
    v <+: self.GetQualScores v := by
  unfold CFastqRead.GetQualScores
  by_cases h : self.mQualScores = []
  · simp [h, copy_back_inserter_eq]
  · have h2 : self.mQualScores.isEmpty = false := by
      cases hq : self.mQualScores with
      | nil => exact absurd hq h
      | cons a l => rfl
    simp [h, h2, copy_back_inserter_eq]

/-- A read with numeric scores and one without, on a vector that already holds
two elements. -/
theorem GetQualScores_appends_witness :
    (CFastqRead.GetQualScores ⟨1, [], [], [], 0, 0, [], [65, 67], [73, 35], [40, 2]⟩ [7, 9]
        = [7, 9] ++ [40, 2]) ∧
    (CFastqRead.GetQualScores ⟨1, [], [], [], 0, 0, [], [65, 67], [73, 35], []⟩ [7, 9]
        = [7, 9] ++ [73, 35]) :=
  ⟨(GetQualScores_appends ⟨1, [], [], [], 0, 0, [], [65, 67], [73, 35], [40, 2]⟩ [7, 9]).1
      (by simp),
   (GetQualScores_appends ⟨1, [], [], [], 0, 0, [], [65, 67], [73, 35], []⟩ [7, 9]).2.1
      rfl⟩

end Sharq

/-! ## Theorems: tools/external/sra-info/main.cpp -/

namespace SraInfo

theorem stoi_range (s : String) (d : Int) (h : stoi s = .ok d) :
    INT_MIN ≤ d ∧ d ≤ INT_MAX := by
  unfold stoi at h
  simp only at h
  split_ifs at h with h1 h2 h3 h4
  · cases h
    push_neg at h3
    exact h3
  · cases h
    push_neg at h4
    exact h4

theorem toUnsignedInt_of_nonneg (d : Int) (h0 : 0 ≤ d) (h1 : d ≤ INT_MAX) :
    toUnsignedInt d = d.toNat := by
  unfold toUnsignedInt
  unfold INT_MAX at h1
  rw [Int.emod_eq_of_lt h0 (by omega)]

theorem GetNumber_ok (args : Args) (option s : String) (condition : Int → Bool) (d : Int)
    (hv : ArgsOptionValue args option 0 = some s) (hs : stoi s = .ok d)
    (hc : condition d = true) : GetNumber args option condition = .ok d := by
  simp [GetNumber, hv, hs, hc]

theorem GetNumber_rejected (args : Args) (option s : String) (condition : Int → Bool)
    (d : Int) (hv : ArgsOptionValue args option 0 = some s) (hs : stoi s = .ok d)
    (hc : condition d = false) : GetNumber args option condition = .error ⟨""⟩ := by
  simp [GetNumber, hv, hs, hc]

theorem GetNumber_unparsed (args : Args) (option s : String) (condition : Int → Bool)
    (e : StoiError) (hv : ArgsOptionValue args option 0 = some s) (hs : stoi s = .error e) :
    GetNumber args option condition = .error ⟨""⟩ := by
  simp [GetNumber, hv, hs]

theorem ArgsOptionCount_pos (args : Args) (option s : String)
    (hv : ArgsOptionValue args option 0 = some s) : 0 < ArgsOptionCount args option := by
  unfold ArgsOptionValue at hv
  unfold ArgsOptionCount
  cases hl : args.values option with
  | nil => rw [hl] at hv; simp at hv
  | cons a l => simp

/-- C8: `GetPositiveNumber` on an option whose value is `s`.  When `std::stoi`
parses `s` to an integer `d > 0` the function returns `d`; when it parses to
`d <= 0`, or does not parse, the function throws the `VDB::Error` whose message
is "invalid value for --", the option name, "(not a positive number)". -/
theorem GetPositiveNumber_spec (args : Args) (option s : String)
    (hv : ArgsOptionValue args option 0 = some s) :
    (∀ d : Int, stoi s = .ok d → 0 < d →
      ∃ n : Nat, GetPositiveNumber args option = .ok n ∧ (n : Int) = d) ∧
    (∀ d : Int, stoi s = .ok d → d ≤ 0 →
      GetPositiveNumber args option
        = .error ⟨"invalid value for --" ++ option ++ "(not a positive number)"⟩) ∧
    (∀ e : StoiError, stoi s = .error e →
      GetPositiveNumber args option
        = .error ⟨"invalid value for --" ++ option ++ "(not a positive number)"⟩) := by
  refine ⟨?_, ?_, ?_⟩
  · intro d hs hd
    have hr := stoi_range s d hs
    refine ⟨d.toNat, ?_, Int.toNat_of_nonneg hd.le⟩
    unfold GetPositiveNumber
    rw [GetNumber_ok args option s _ d hv hs (by simpa using hd)]
    simp [toUnsignedInt_of_nonneg d hd.le hr.2]
  · intro d hs hd
    unfold GetPositiveNumber
    rw [GetNumber_rejected args option s _ d hv hs (by simpa using hd)]
  · intro e hs
    unfold GetPositiveNumber
    rw [GetNumber_unparsed args option s _ e hv hs]

/-- The values "5", "0" and "abc" given for `--limit`. -/
theorem GetPositiveNumber_spec_witness :
    (∃ n : Nat, GetPositiveNumber ⟨[("limit", ["5"])]⟩ OPTION_LIMIT = .ok n ∧ (n : Int) = 5) ∧
    GetPositiveNumber ⟨[("limit", ["0"])]⟩ OPTION_LIMIT
      = .error ⟨"invalid value for --" ++ OPTION_LIMIT ++ "(not a positive number)"⟩ ∧
    GetPositiveNumber ⟨[("limit", ["abc"])]⟩ OPTION_LIMIT
      = .error ⟨"invalid value for --" ++ OPTION_LIMIT ++ "(not a positive number)"⟩ :=
  ⟨(GetPositiveNumber_spec ⟨[("limit", ["5"])]⟩ OPTION_LIMIT "5" rfl).1 5 rfl (by decide),
   (GetPositiveNumber_spec ⟨[("limit", ["0"])]⟩ OPTION_LIMIT "0" rfl).2.1 0 rfl (by decide),
   (GetPositiveNumber_spec ⟨[("limit", ["abc"])]⟩ OPTION_LIMIT "abc" rfl).2.2
     .invalid_argument rfl⟩

end SraInfo

/-! ## Theorems: tools/external/fasterq-dump/var_fmt.h -/

namespace VarFmt

/-! ### Descriptor table -/

theorem add_of_find_some (self : vfmt_desc_list_t) (name : Bytes)
    (b binding : PlaceholderBinding) (h : self.find name = some b) :
    self.add name binding = (self, some (.duplicateName name)) := by
  simp [vfmt_desc_list_t.add, h]

theorem find_add_of_find_some (self : vfmt_desc_list_t) (name other : Bytes)
    (b binding : PlaceholderBinding) (h : self.find name = some b) :
    (self.add other binding).1.find name = some b := by
  unfold vfmt_desc_list_t.add
  cases ho : self.find other with
  | some _ => simpa using h
  | none =>
    unfold vfmt_desc_list_t.find at h ⊢
    simp only [List.find?_append]
    cases hf : self.entries.find? (fun d => decide (d.name = name)) with
    | none => rw [hf] at h; cases h
    | some d => rw [hf] at h; simpa using h

theorem find_add_self (self : vfmt_desc_list_t) (name : Bytes)
    (binding : PlaceholderBinding) : ((self.add name binding).1.find name).isSome = true := by
  unfold vfmt_desc_list_t.add
  cases ho : self.find name with
  | some _ => simp [ho]
  | none =>
    unfold vfmt_desc_list_t.find at ho ⊢
    cases hf : self.entries.find? (fun d => decide (d.name = name)) with
    | some d => rw [hf] at ho; cases ho
    | none => simp [List.find?_append, hf]

theorem find_run_of_find_some (c : AddCall) (self : vfmt_desc_list_t) (name : Bytes)
    (b : PlaceholderBinding) (h : self.find name = some b) :
    (c.run self).find name = some b := by
  cases c with
  | str n idx idx2 => exact find_add_of_find_some self name n b _ h
  | int n idx => exact find_add_of_find_some self name n b _ h

theorem find_runAddCalls_of_find_some (calls : List AddCall) (self : vfmt_desc_list_t)
    (name : Bytes) (b : PlaceholderBinding) (h : self.find name = some b) :
    (runAddCalls calls self).find name = some b := by
  induction calls generalizing self with
  | nil => exact h
  | cons c rest ih => exact ih (c.run self) (find_run_of_find_some c self name b h)

/-! ### Compilation -/

theorem digitChar_toNat (d : Nat) (h : d < 10) : (digitChar d).toNat = 48 + d := by
  interval_cases d <;> rfl

theorem digitChar_isDigit (d : Nat) (h : d < 10) : (digitChar d).isDigit = true := by
  interval_cases d <;> rfl

theorem decimalAux_append (fuel n : Nat) (acc : List Char) :
    decimalAux fuel n acc = decimalAux fuel n [] ++ acc := by
  induction fuel generalizing n acc with
  | zero => simp [decimalAux]
  | succ k ih =>
    unfold decimalAux
    by_cases h : n < 10
    · simp [h]
    · simp only [h, if_false]
      rw [ih (n / 10) (digitChar (n % 10) :: acc), ih (n / 10) [digitChar (n % 10)]]
      simp

theorem decimalValue_append_single (ds : List Char) (c : Char) :
    decimalValue (ds ++ [c]) = 10 * decimalValue ds + (c.toNat - 48) := by
  simp [decimalValue, List.foldl_append]

theorem decimalAux_spec (fuel n : Nat) (h : n < fuel) :
    decimalValue (decimalAux fuel n []) = n ∧
    (∀ c ∈ decimalAux fuel n [], c.isDigit = true) ∧
    (∃ d rest, decimalAux fuel n [] = digitChar d :: rest ∧ d < 10 ∧ (n ≠ 0 → d ≠ 0)) := by
  induction fuel generalizing n with
  | zero => omega
  | succ k ih =>
    unfold decimalAux
    by_cases hn : n < 10
    · simp only [hn, if_true]
      refine ⟨?_, ?_, n, [], rfl, hn, fun h0 => h0⟩
      · simp [decimalValue, digitChar_toNat n hn]
      · intro c hc
        simp only [List.mem_singleton] at hc
        rw [hc]
        exact digitChar_isDigit n hn
    · simp only [hn, if_false]
      rw [decimalAux_append]
      have hdiv : n / 10 < k := by omega
      obtain ⟨hv, hd, d, rest, hhead, hd10, hd0⟩ := ih (n / 10) hdiv
      have hmod : n % 10 < 10 := Nat.mod_lt _ (by decide)
      refine ⟨?_, ?_, d, rest ++ [digitChar (n % 10)], ?_, hd10, fun _ => hd0 (by omega)⟩
      · rw [decimalValue_append_single, hv, digitChar_toNat _ hmod]
        omega
      · intro c hc
        rw [List.mem_append] at hc
        rcases hc with hc | hc
        · exact hd c hc
        · simp only [List.mem_singleton] at hc
          rw [hc]
          exact digitChar_isDigit _ hmod
      · rw [hhead]
        simp

theorem emit_of_inBounds (combine : Bytes → Bytes → Bytes) (seg : Segment)
    (str_args : List Bytes) (int_args : List Nat)
    (h : seg.inBounds str_args.length int_args.length = true) :
    emit combine seg str_args int_args = some (segmentText combine str_args int_args seg) := by
  cases seg with
  | Literal text => rfl
  | PlaceholderRef b =>
    cases b with
    | StringArg idx idx2 =>
      cases idx2 with
      | none =>
        simp only [Segment.inBounds, PlaceholderBinding.inBounds, decide_eq_true_eq] at h
        simp [emit, segmentText, List.getD, List.getElem?_eq_getElem h]
      | some idx2 =>
        simp only [Segment.inBounds, PlaceholderBinding.inBounds, Bool.and_eq_true,
          decide_eq_true_eq] at h
        simp [emit, segmentText, List.getD, List.getElem?_eq_getElem h.1,
          List.getElem?_eq_getElem h.2]
    | IntArg idx =>
      simp only [Segment.inBounds, PlaceholderBinding.inBounds, decide_eq_true_eq] at h
      simp [emit, segmentText, List.getD, List.getElem?_eq_getElem h]

theorem renderedText_of_inBounds (combine : Bytes → Bytes → Bytes) (str_args : List Bytes)
    (int_args : List Nat) (segs : List Segment)
    (h : segs.all (fun seg => seg.inBounds str_args.length int_args.length) = true) :
    renderedText combine str_args int_args segs
      = some (segs.map (segmentText combine str_args int_args)).flatten := by
  induction segs with
  | nil => rfl
  | cons seg rest ih =>
    simp only [List.all_cons, Bool.and_eq_true] at h
    simp [renderedText, emit_of_inBounds combine seg str_args int_args h.1, ih h.2]

theorem render_putCount (combine : Bytes → Bytes → Bytes) (str_args : List Bytes)
    (int_args : List Nat) (segs : List Segment) (n : Nat) :
    render combine putCount str_args int_args segs n
      = match renderedText combine str_args int_args segs with
        | some t => (n + t.length, rc_t.success)
        | none => ((render combine putCount str_args int_args segs n).1,
                    rc_t.contract_violation) := by
  induction segs generalizing n with
  | nil => simp [render, renderedText]
  | cons seg rest ih =>
    cases he : emit combine seg str_args int_args with
    | none => simp [render, renderedText, he]
    | some a =>
      cases hr : renderedText combine str_args int_args rest with
      | none =>
        have := ih (n + a.length)
        rw [hr] at this
        simp only [render, renderedText, he, hr, putCount]
        exact this
      | some t =>
        have := ih (n + a.length)
        rw [hr] at this
        simp only [render, renderedText, he, hr, putCount]
        rw [this]
        simp [Nat.add_assoc]

theorem render_putBuffer (combine : Bytes → Bytes → Bytes) (str_args : List Bytes)
    (int_args : List Nat) (segs : List Segment) (t : Bytes)
    (ht : renderedText combine str_args int_args segs = some t) (buf : SBuffer_t)
    (hfit : buf.S.length + t.length ≤ buf.buffer_size) :
    render combine putBuffer str_args int_args segs buf
      = (⟨buf.S ++ t, buf.buffer_size⟩, rc_t.success) := by
  induction segs generalizing buf t with
  | nil =>
    simp only [renderedText, Option.some.injEq] at ht
    subst ht
    simp [render]
  | cons seg rest ih =>
    cases he : emit combine seg str_args int_args with
    | none => simp [renderedText, he] at ht
    | some a =>
      cases hr : renderedText combine str_args int_args rest with
      | none => simp [renderedText, he, hr] at ht
      | some t1 =>
        simp only [renderedText, he, hr, Option.some.injEq] at ht
        subst ht
        simp only [List.length_append] at hfit
        have htake : a.take (buf.buffer_size - buf.S.length) = a :=
          List.take_of_length_le (by omega)
        simp only [render, he, putBuffer, SBuffer_t.append, htake]
        rw [ih t1 hr ⟨buf.S ++ a, buf.buffer_size⟩ (by simp only [List.length_append]; omega)]
        simp

theorem vfmt_write_to_buffer_eq (combine : Bytes → Bytes → Bytes) (self : vfmt_t)
    (str_args : List Bytes) (int_args : List Nat) :
    vfmt_write_to_buffer combine self str_args int_args
      = match renderedText combine str_args int_args self.segments with
        | some t => some ⟨t, t.length⟩
        | none => none := by
  unfold vfmt_write_to_buffer
  rw [render_putCount]
  cases hr : renderedText combine str_args int_args self.segments with
  | none => simp
  | some t =>
    simp only
    rw [render_putBuffer combine str_args int_args self.segments t hr ⟨[], 0 + t.length⟩
      (by simp)]
    simp

theorem render_putFile_success (combine : Bytes → Bytes → Bytes) (str_args : List Bytes)
    (int_args : List Nat) (segs : List Segment) (f f1 : KFile) (pos pos1 : Nat)
    (h : render combine putFile str_args int_args segs (f, pos) = ((f1, pos1), rc_t.success)) :
    ∃ t, renderedText combine str_args int_args segs = some t ∧
      f1.content = f.content ++ t ∧ t.length ≤ f.room ∧ f1.room = f.room - t.length ∧
      pos1 % UINT64_MOD = (pos + t.length) % UINT64_MOD ∧ (segs ≠ [] → pos1 < UINT64_MOD) := by
  induction segs generalizing f pos with
  | nil =>
    simp only [render, Prod.mk.injEq, and_true] at h
    obtain ⟨rfl, rfl⟩ := h
    exact ⟨[], rfl, by simp, by simp, by simp, by simp, by simp⟩
  | cons seg rest ih =>
    cases he : emit combine seg str_args int_args with
    | none => simp [render, he] at h
    | some a =>
      simp only [render, he, putFile, KFile.write] at h
      by_cases hfit : a.length ≤ f.room
      · simp only [hfit, if_true] at h
        obtain ⟨t1, ht1, hc, hl, hroom, hp, hlt⟩ := ih _ _ h
        refine ⟨a ++ t1, by simp [renderedText, he, ht1], ?_, ?_, ?_, ?_, ?_⟩
        · simpa using hc
        · simp only [List.length_append]
          simp only at hl
          omega
        · simp only [List.length_append]
          simp only at hroom
          omega
        · rw [hp, List.length_append, Nat.add_mod, Nat.mod_mod, ← Nat.add_mod, Nat.add_assoc]
        · intro _
          by_cases hrest : rest = []
          · subst hrest
            simp only [render, Prod.mk.injEq, and_true] at h
            rw [← h.2]
            exact Nat.mod_lt _ (by decide)
          · exact hlt hrest
      · simp [hfit] at h

theorem render_putFile_of_room (combine : Bytes → Bytes → Bytes) (str_args : List Bytes)
    (int_args : List Nat) (segs : List Segment) (t : Bytes)
    (ht : renderedText combine str_args int_args segs = some t) (f : KFile) (pos : Nat)
    (hroom : t.length ≤ f.room) :
    (render combine putFile str_args int_args segs (f, pos)).2 = rc_t.success := by
  induction segs generalizing f pos t with
  | nil => rfl
  | cons seg rest ih =>
    cases he : emit combine seg str_args int_args with
    | none => simp [renderedText, he] at ht
    | some a =>
      cases hr : renderedText combine str_args int_args rest with
      | none => simp [renderedText, he, hr] at ht
      | some t1 =>
        simp only [renderedText, he, hr, Option.some.injEq] at ht
        subst ht
        simp only [List.length_append] at hroom
        have hfit : a.length ≤ f.room := by omega
        simp only [render, he, putFile, KFile.write, hfit, if_true]
        exact ih t1 hr _ _ (by simp only; omega)

theorem vfmt_print_to_file_success (combine : Bytes → Bytes → Bytes) (self : vfmt_t)
    (f f1 : KFile) (pos pos1 : Nat) (str_args : List Bytes) (int_args : List Nat)
    (h : vfmt_print_to_file combine self f pos str_args int_args = (rc_t.success, f1, pos1)) :
    ∃ t, vfmt_write_to_buffer combine self str_args int_args = some ⟨t, t.length⟩ ∧
      f1.content = f.content ++ t ∧ t.length ≤ f.room ∧
      pos1 % UINT64_MOD = (pos + t.length) % UINT64_MOD ∧
      (pos < UINT64_MOD → pos1 < UINT64_MOD) := by
  unfold vfmt_print_to_file at h
  cases hr : render combine putFile str_args int_args self.segments (f, pos) with
  | mk s rc =>
    obtain ⟨f2, pos2⟩ := s
    rw [hr] at h
    simp only [Prod.mk.injEq] at h
    obtain ⟨hrc, hf, hp⟩ := h
    subst hrc hf hp
    obtain ⟨t, ht, hc, hl, _, hpm, hlt⟩ := render_putFile_success combine str_args int_args
      self.segments f f2 pos pos2 hr
    refine ⟨t, ?_, hc, hl, hpm, ?_⟩
    · rw [vfmt_write_to_buffer_eq, ht]
    · intro hpos
      by_cases hs : self.segments = []
      · rw [hs] at hr
        simp only [render, Prod.mk.injEq, and_true] at hr
        omega
      · exact hlt hs

/-- C1: for a program whose slots are in bounds of the argument arrays,
`vfmt_write_to_buffer` returns a buffer; whenever `vfmt_print_to_file` succeeds
on a fresh empty sink for the same program and arguments, the content of the
sink is exactly the bytes of that buffer; and it does succeed whenever the sink
accepts that many bytes. -/
theorem vfmt_print_to_file_matches_buffer (combine : Bytes → Bytes → Bytes) (self : vfmt_t)
    (str_args : List Bytes) (int_args : List Nat)
    (hb : self.inBounds str_args.length int_args.length = true) :
    ∃ buf, vfmt_write_to_buffer combine self str_args int_args = some buf ∧
      (∀ (room pos : Nat) (f1 : KFile) (pos1 : Nat),
        vfmt_print_to_file combine self ⟨[], room⟩ pos str_args int_args
            = (rc_t.success, f1, pos1) →
          f1.content = buf.S) ∧
      (∀ (room pos : Nat), buf.S.length ≤ room →
        (vfmt_print_to_file combine self ⟨[], room⟩ pos str_args int_args).1
          = rc_t.success) := by
  have ht := renderedText_of_inBounds combine str_args int_args self.segments hb
  refine ⟨⟨_, _⟩, by rw [vfmt_write_to_buffer_eq, ht], ?_, ?_⟩
  · intro room pos f1 pos1 h
    obtain ⟨t, hbuf, hc, _⟩ :=
      vfmt_print_to_file_success combine self ⟨[], room⟩ f1 pos pos1 str_args int_args h
    rw [vfmt_write_to_buffer_eq, ht] at hbuf
    simp only [Option.some.injEq, SBuffer_t.mk.injEq] at hbuf
    rw [hc, ← hbuf.1]
    simp
  · intro room pos hroom
    have := render_putFile_of_room combine str_args int_args self.segments _ ht
      ⟨[], room⟩ pos hroom
    unfold vfmt_print_to_file
    cases hr : render combine putFile str_args int_args self.segments (⟨[], room⟩, pos) with
    | mk s rc =>
      rw [hr] at this
      obtain ⟨f2, pos2⟩ := s
      exact this

/-- The worked example rendered into a buffer and into a fresh sink with room
for 100 bytes. -/
theorem vfmt_print_to_file_matches_buffer_witness :
    ∃ buf, vfmt_write_to_buffer concatRule exampleProgram ["readA".toList] [42] = some buf ∧
      (∀ (room pos : Nat) (f1 : KFile) (pos1 : Nat),
        vfmt_print_to_file concatRule exampleProgram ⟨[], room⟩ pos ["readA".toList] [42]
            = (rc_t.success, f1, pos1) →
          f1.content = buf.S) ∧
      (∀ (room pos : Nat), buf.S.length ≤ room →
        (vfmt_print_to_file concatRule exampleProgram ⟨[], room⟩ pos ["readA".toList] [42]).1
          = rc_t.success) :=
  vfmt_print_to_file_matches_buffer concatRule exampleProgram ["readA".toList] [42] rfl

/-- C4: every add call leaves its name registered in the descriptor table.  A
name that is registered stays registered with the same binding through any
further add calls, in any order, and a further `vfmt_add_str_to_desc_list` or
`vfmt_add_int_to_desc_list` with that name reports the duplicate-name
construction error and leaves the table as it is. -/
theorem vfmt_add_duplicate_fails (self : vfmt_desc_list_t) (name : Bytes)
    (b : PlaceholderBinding) (h : self.find name = some b) (later : List AddCall)
    (idx idx1 : Nat) (idx2 : Option Nat) :
    vfmt_add_str_to_desc_list (runAddCalls later self) name idx idx2
      = (runAddCalls later self, some (.duplicateName name)) ∧
    vfmt_add_int_to_desc_list (runAddCalls later self) name idx1
      = (runAddCalls later self, some (.duplicateName name)) ∧
    (runAddCalls later self).find name = some b ∧
    (∀ (t : vfmt_desc_list_t) (c : AddCall), ((c.run t).find c.name).isSome = true) := by
  have hf := find_runAddCalls_of_find_some later self name b h
  refine ⟨add_of_find_some _ name b _ hf, add_of_find_some _ name b _ hf, hf, ?_⟩
  intro t c
  cases c with
  | str n i i2 => exact find_add_self t n _
  | int n i => exact find_add_self t n _

/-- The table of the worked example, where "len" was registered by
`vfmt_add_int_to_desc_list` before "name" was added; two more names are added
before "len" is tried again. -/
theorem vfmt_add_duplicate_fails_witness :
    vfmt_add_str_to_desc_list
        (runAddCalls [.str ['a'] 1 none, .int ['b'] 1] exampleTable) "len".toList 5 (some 6)
      = (runAddCalls [.str ['a'] 1 none, .int ['b'] 1] exampleTable,
          some (.duplicateName "len".toList)) ∧
    vfmt_add_int_to_desc_list
        (runAddCalls [.str ['a'] 1 none, .int ['b'] 1] exampleTable) "len".toList 7
      = (runAddCalls [.str ['a'] 1 none, .int ['b'] 1] exampleTable,
          some (.duplicateName "len".toList)) ∧
    (runAddCalls [.str ['a'] 1 none, .int ['b'] 1] exampleTable).find "len".toList
      = some (.IntArg 0) :=
  ⟨(vfmt_add_duplicate_fails exampleTable "len".toList (.IntArg 0) rfl
      [.str ['a'] 1 none, .int ['b'] 1] 5 7 (some 6)).1,
   (vfmt_add_duplicate_fails exampleTable "len".toList (.IntArg 0) rfl
      [.str ['a'] 1 none, .int ['b'] 1] 5 7 (some 6)).2.1,
   (vfmt_add_duplicate_fails exampleTable "len".toList (.IntArg 0) rfl
      [.str ['a'] 1 none, .int ['b'] 1] 5 7 (some 6)).2.2.1⟩

end VarFmt

/-! ## Theorems: tools/external/sra-info/main.cpp, the detail level -/

namespace SraInfo

theorem toDigitsCore_eq_decimalAux (fuel n : Nat) (acc : List Char) :
    Nat.toDigitsCore 10 fuel n acc = VarFmt.decimalAux fuel n acc := by
  induction fuel generalizing n acc with
  | zero => rfl
  | succ k ih =>
    unfold Nat.toDigitsCore VarFmt.decimalAux
    have hmod : n % 10 < 10 := Nat.mod_lt _ (by decide)
    have hchar : Nat.digitChar (n % 10) = VarFmt.digitChar (n % 10) := by
      generalize n % 10 = d at hmod
      interval_cases d <;> rfl
    by_cases hn : n < 10
    · have h0 : n / 10 = 0 := by omega
      have hm : n % 10 = n := by omega
      rw [hm] at hchar
      simp only [h0, hn, if_true, hm, hchar]
    · have h0 : ¬ (n / 10 = 0) := by omega
      simp only [h0, hn, if_false, hchar]
      exact ih _ _

theorem numeral_toList (n : Nat) : (numeral n).toList = VarFmt.decimalText n := by
  show Nat.toDigits 10 n = VarFmt.decimalText n
  unfold Nat.toDigits VarFmt.decimalText
  exact toDigitsCore_eq_decimalAux _ _ _

theorem isspace_digitChar (d : Nat) (h : d < 10) : isspace (VarFmt.digitChar d) = false := by
  interval_cases d <;> rfl

theorem takeSign_digitChar (d : Nat) (h : d < 10) (rest : List Char) :
    takeSign (VarFmt.digitChar d :: rest) = (false, VarFmt.digitChar d :: rest) := by
  interval_cases d <;> rfl

theorem stoi_numeral (n : Nat) :
    stoi (numeral n)
      = if INT_MAX < (n : Int) then .error .out_of_range else .ok (n : Int) := by
  obtain ⟨hv, hd, d, rest, hhead, hd10, _⟩ :=
    VarFmt.decimalAux_spec (n + 1) n (Nat.lt_succ_self n)
  have hl : (numeral n).toList = VarFmt.digitChar d :: rest := by
    rw [numeral_toList]
    exact hhead
  have hall : ∀ c ∈ VarFmt.digitChar d :: rest, c.isDigit = true := by
    rw [← hhead]
    exact hd
  have hval : digitsValue (VarFmt.digitChar d :: rest) = n := by
    rw [← hhead]
    exact hv
  have htake : (VarFmt.digitChar d :: rest).takeWhile Char.isDigit
      = VarFmt.digitChar d :: rest := by
    rw [List.takeWhile_eq_self_iff]
    exact hall
  have hbody : takeSign ((numeral n).toList.dropWhile isspace)
      = (false, VarFmt.digitChar d :: rest) := by
    rw [hl, List.dropWhile_cons, isspace_digitChar d hd10]
    exact takeSign_digitChar d hd10 rest
  have hmin : ¬ ((n : Int) < INT_MIN) := by
    unfold INT_MIN
    omega
  unfold stoi
  simp only [hbody, htake, hval]
  simp [hmin]

/-- C7, amended: the detail level of the spot-layout output.  Without
`--detail` the level is Verbose.  With `--detail` spelled as the number `n`:
0 gives Short, 1 gives Abbreviated, 2 gives Full, every `n` above 2 and up to
2147483647 (the largest `int`) gives Verbose, and an `n` above 2147483647 is
refused.  For any value `s` that `std::stoi` parses to `d` the same holds of
`d`, and a negative `d` is refused (the value must be 0 or greater); a value
that does not parse is refused as well. -/
theorem KMain_detail_spec (args : Args) :
    (ArgsOptionCount args OPTION_DETAIL = 0 → KMain_detail args = .ok Detail.Verbose) ∧
    (∀ n : Nat, ArgsOptionValue args OPTION_DETAIL 0 = some (numeral n) →
        (n = 0 → KMain_detail args = .ok Detail.Short) ∧
        (n = 1 → KMain_detail args = .ok Detail.Abbreviated) ∧
        (n = 2 → KMain_detail args = .ok Detail.Full) ∧
        (2 < n → n ≤ 2147483647 → KMain_detail args = .ok Detail.Verbose) ∧
        (2147483647 < n → KMain_detail args
          = .error ⟨"invalid value for --" ++ OPTION_DETAIL ++ "(not a non-negative number)"⟩)) ∧
    (∀ (s : String) (d : Int), ArgsOptionValue args OPTION_DETAIL 0 = some s →
      stoi s = .ok d →
        (d = 0 → KMain_detail args = .ok Detail.Short) ∧
        (d = 1 → KMain_detail args = .ok Detail.Abbreviated) ∧
        (d = 2 → KMain_detail args = .ok Detail.Full) ∧
        (2 < d → KMain_detail args = .ok Detail.Verbose) ∧
        (d < 0 → KMain_detail args
          = .error ⟨"invalid value for --" ++ OPTION_DETAIL ++ "(not a non-negative number)"⟩)) ∧
    (∀ (s : String) (e : StoiError), ArgsOptionValue args OPTION_DETAIL 0 = some s →
      stoi s = .error e →
        KMain_detail args
          = .error ⟨"invalid value for --" ++ OPTION_DETAIL ++ "(not a non-negative number)"⟩) := by
  have hparsed : ∀ (s : String) (d : Int), ArgsOptionValue args OPTION_DETAIL 0 = some s →
      stoi s = .ok d →
        (d = 0 → KMain_detail args = .ok Detail.Short) ∧
        (d = 1 → KMain_detail args = .ok Detail.Abbreviated) ∧
        (d = 2 → KMain_detail args = .ok Detail.Full) ∧
        (2 < d → KMain_detail args = .ok Detail.Verbose) ∧
        (d < 0 → KMain_detail args
          = .error ⟨"invalid value for --" ++ OPTION_DETAIL ++ "(not a non-negative number)"⟩) := by
    intro s d hv hs
    have hc := ArgsOptionCount_pos args OPTION_DETAIL s hv
    have hr := stoi_range s d hs
    have hok : 0 ≤ d → GetNonNegativeNumber args OPTION_DETAIL = .ok d.toNat := by
      intro h0
      unfold GetNonNegativeNumber
      rw [GetNumber_ok args OPTION_DETAIL s _ d hv hs (by simpa using h0)]
      simp [toUnsignedInt_of_nonneg d h0 hr.2]
    refine ⟨?_, ?_, ?_, ?_, ?_⟩
    · intro h
      subst h
      simp [KMain_detail, hc, hok (le_refl 0)]
    · intro h
      subst h
      simp [KMain_detail, hc, hok (by decide)]
    · intro h
      subst h
      simp [KMain_detail, hc, hok (by decide)]
    · intro h
      obtain ⟨k, hk⟩ : ∃ k : Nat, d.toNat = k + 3 := ⟨d.toNat - 3, by omega⟩
      simp [KMain_detail, hc, hok (by omega), hk]
    · intro h
      unfold KMain_detail GetNonNegativeNumber
      rw [GetNumber_rejected args OPTION_DETAIL s _ d hv hs (by simpa using h)]
      simp [hc]
  have hfailed : ∀ (s : String) (e : StoiError), ArgsOptionValue args OPTION_DETAIL 0 = some s →
      stoi s = .error e →
        KMain_detail args
          = .error ⟨"invalid value for --" ++ OPTION_DETAIL ++ "(not a non-negative number)"⟩ := by
    intro s e hv hs
    have hc := ArgsOptionCount_pos args OPTION_DETAIL s hv
    unfold KMain_detail GetNonNegativeNumber
    rw [GetNumber_unparsed args OPTION_DETAIL s _ e hv hs]
    simp [hc]
  refine ⟨?_, ?_, hparsed, hfailed⟩
  · intro h
    simp [KMain_detail, h]
  · intro n hv
    have hs := stoi_numeral n
    unfold INT_MAX at hs
    by_cases hbig : 2147483647 < n
    · have hbig1 : (2147483647 : Int) < (n : Int) := by omega
      rw [if_pos hbig1] at hs
      refine ⟨by omega, by omega, by omega, by omega, fun _ => hfailed _ _ hv hs⟩
    · have hbig1 : ¬ ((2147483647 : Int) < (n : Int)) := by omega
      rw [if_neg hbig1] at hs
      obtain ⟨h0, h1, h2, h3, _⟩ := hparsed _ _ hv hs
      exact ⟨fun h => h0 (by omega), fun h => h1 (by omega), fun h => h2 (by omega),
        fun h _ => h3 (by omega), fun h => absurd h hbig⟩

/-- The command lines without `--detail`, and with `--detail` 0, 1, 2, 7,
2147483647, 2147483648 and -1. -/
theorem KMain_detail_spec_witness :
    KMain_detail ⟨[]⟩ = .ok Detail.Verbose ∧
    KMain_detail ⟨[("detail", ["0"])]⟩ = .ok Detail.Short ∧
    KMain_detail ⟨[("detail", ["1"])]⟩ = .ok Detail.Abbreviated ∧
    KMain_detail ⟨[("detail", ["2"])]⟩ = .ok Detail.Full ∧
    KMain_detail ⟨[("detail", ["7"])]⟩ = .ok Detail.Verbose ∧
    KMain_detail ⟨[("detail", ["2147483647"])]⟩ = .ok Detail.Verbose ∧
    KMain_detail ⟨[("detail", ["2147483648"])]⟩
      = .error ⟨"invalid value for --" ++ OPTION_DETAIL ++ "(not a non-negative number)"⟩ ∧
    KMain_detail ⟨[("detail", ["-1"])]⟩
      = .error ⟨"invalid value for --" ++ OPTION_DETAIL ++ "(not a non-negative number)"⟩ :=
  ⟨(KMain_detail_spec ⟨[]⟩).1 rfl,
   ((KMain_detail_spec ⟨[("detail", ["0"])]⟩).2.1 0 rfl).1 rfl,
   ((KMain_detail_spec ⟨[("detail", ["1"])]⟩).2.1 1 rfl).2.1 rfl,
   ((KMain_detail_spec ⟨[("detail", ["2"])]⟩).2.1 2 rfl).2.2.1 rfl,
   ((KMain_detail_spec ⟨[("detail", ["7"])]⟩).2.1 7 rfl).2.2.2.1 (by decide) (by decide),
   ((KMain_detail_spec ⟨[("detail", ["2147483647"])]⟩).2.1 2147483647 rfl).2.2.2.1
     (by decide) (by decide),
   ((KMain_detail_spec ⟨[("detail", ["2147483648"])]⟩).2.1 2147483648 rfl).2.2.2.2 (by decide),
   ((KMain_detail_spec ⟨[("detail", ["-1"])]⟩).2.2.1 "-1" (-1) rfl rfl).2.2.2.2 (by decide)⟩

/-- C7 as stated fails above the range of `int`: the value 2147483648 is higher
than 2, yet `--detail 2147483648` is refused and does not give Verbose. -/
theorem KMain_detail_refuses_large :
    (2 : Nat) < 2147483648 ∧
    numeral 2147483648 = "2147483648" ∧
    KMain_detail ⟨[("detail", ["2147483648"])]⟩
      = .error ⟨"invalid value for --detail(not a non-negative number)"⟩ ∧
    KMain_detail ⟨[("detail", ["2147483648"])]⟩ ≠ .ok Detail.Verbose :=
  ⟨by decide, rfl, rfl, fun h => by cases h⟩

end SraInfo
